import Mathlib

/-!
Verification of the continuous audio streaming and gapless playback engine
(`AudioService` together with its audio utility functions and configuration).
The JavaScript/TypeScript source is shallowly embedded: JS numbers are
modelled as rationals, typed arrays as lists, and the fallible decoding
pipeline returns `Option`.
-/

namespace Vibes

/-! ## Configuration (`AUDIO_CONFIG` in `constants.js`) -/

structure AudioConfigT where
  SAMPLE_RATE : ℕ
  CHANNELS : ℕ
  BIT_DEPTH : ℕ
  BUFFER_SIZE : ℕ
  LOOKAHEAD_TIME : ℚ
  UNDERRUN_THRESHOLD : ℚ
  FADE_DURATION : ℚ
deriving DecidableEq

/-- `AUDIO_CONFIG` from `constants.js`: sample rate 24000 Hz, mono, 16-bit,
look-ahead 0.1 s, fade duration 0.05 s. -/
def audioConfig : AudioConfigT :=
  { SAMPLE_RATE := 24000
    CHANNELS := 1
    BIT_DEPTH := 16
    BUFFER_SIZE := 4096
    LOOKAHEAD_TIME := 1/10
    UNDERRUN_THRESHOLD := 1/20
    FADE_DURATION := 1/20 }

/-! ## Base64 (the browser `atob` builtin used by `base64ToUint8Array`,
and, for the round-trip property, the producer-side encoder).

`atob` is a platform builtin, not repository code; it is modelled from the
spec ("Input is base64 text; decoding proceeds text→raw bytes→…") as the
standard forgiving base64 decoder over the standard alphabet. -/

def base64Alphabet : List Char :=
  ("ABCDEFGHIJKLMNOPQRSTUVWXYZabcdefghijklmnopqrstuvwxyz0123456789+/").toList

/-- Character of the standard base64 alphabet at index `n` (`n < 64`). -/
def b64Char (n : ℕ) : Char := base64Alphabet.getD n 'A'

def b64IndexAux : List Char → ℕ → Char → Option ℕ
  | [], _, _ => none
  | c :: cs, i, target => if c = target then some i else b64IndexAux cs (i + 1) target

/-- Index of a character in the base64 alphabet; `none` for characters outside
the alphabet (an invalid character makes `atob` throw). -/
def b64Index (c : Char) : Option ℕ := b64IndexAux base64Alphabet 0 c

/-- Modelled from the spec: the external producer's base64 encoder (the
repository only decodes; the "Decode round-trip" property encodes known
PCM16 samples to base64 first). Standard base64 with `=` padding. -/
def base64EncodeBytes : List ℕ → List Char
  | [] => []
  | [b0] => [b64Char (b0 / 4), b64Char (b0 % 4 * 16), '=', '=']
  | [b0, b1] => [b64Char (b0 / 4), b64Char (b0 % 4 * 16 + b1 / 16), b64Char (b1 % 16 * 4), '=']
  | b0 :: b1 :: b2 :: rest =>
      b64Char (b0 / 4) :: b64Char (b0 % 4 * 16 + b1 / 16) ::
      b64Char (b1 % 16 * 4 + b2 / 64) :: b64Char (b2 % 64) :: base64EncodeBytes rest

/-- Decoding of a final base64 quadruple, honouring `=` padding. -/
def decodeQuad (a b c d : Char) : Option (List ℕ) :=
  if d = '=' then
    if c = '=' then
      match b64Index a, b64Index b with
      | some x, some y => some [x * 4 + y / 16]
      | _, _ => none
    else
      match b64Index a, b64Index b, b64Index c with
      | some x, some y, some z => some [x * 4 + y / 16, y % 16 * 16 + z / 4]
      | _, _, _ => none
  else
    match b64Index a, b64Index b, b64Index c, b64Index d with
    | some x, some y, some z, some w =>
        some [x * 4 + y / 16, y % 16 * 16 + z / 4, z % 4 * 64 + w]
    | _, _, _, _ => none

/-- Modelled from the spec: group-wise base64 decoding (the body of the
browser's `atob`). A trailing group of 2 or 3 characters without padding is
accepted (forgiving base64); a lone trailing character is an error. -/
def b64DecodeGroups : List Char → Option (List ℕ)
  | [] => some []
  | [_] => none
  | [a, b] =>
      match b64Index a, b64Index b with
      | some x, some y => some [x * 4 + y / 16]
      | _, _ => none
  | [a, b, c] =>
      match b64Index a, b64Index b, b64Index c with
      | some x, some y, some z => some [x * 4 + y / 16, y % 16 * 16 + z / 4]
      | _, _, _ => none
  | [a, b, c, d] => decodeQuad a b c d
  | a :: b :: c :: d :: e :: rest =>
      match b64Index a, b64Index b, b64Index c, b64Index d, b64DecodeGroups (e :: rest) with
      | some x, some y, some z, some w, some tail =>
          some ((x * 4 + y / 16) :: (y % 16 * 16 + z / 4) :: (z % 4 * 64 + w) :: tail)
      | _, _, _, _, _ => none

/-- Modelled from the spec: the browser `atob` builtin. Returns the decoded
bytes, or `none` when `atob` throws on malformed input. -/
def atob (s : String) : Option (List ℕ) := b64DecodeGroups s.data

/-! ## Decoder pipeline (`audio.js`) -/

/-- `base64ToUint8Array`: `atob` produces a binary string whose char codes
(all < 256) are stored into a `Uint8Array`; the byte list is that code list. -/
def base64ToUint8Array (base64 : String) : Option (List ℕ) := atob base64

/-- Storing a value into an `Int16Array` element wraps it into
[-32768, 32767] (two's complement). -/
def storeInt16 (v : ℤ) : ℤ :=
  let m := v % 65536
  if m > 32767 then m - 65536 else m

/-- One sample of `uint8ArrayToInt16Array`: `(highByte << 8) | lowByte` is
stored into the `Int16Array` (which wraps to signed); the source's subsequent
`if (int16Array[i] > 32767) int16Array[i] -= 65536` reads the already-wrapped
value, so that branch can never fire, but it is kept here verbatim. -/
def sampleOfBytes (lo hi : ℕ) : ℤ :=
  let stored := storeInt16 ((hi : ℤ) * 256 + (lo : ℤ))
  if stored > 32767 then stored - 65536 else stored

/-- Consecutive (low, high) byte pairs; a trailing odd byte is left unused,
mirroring `new Int16Array(uint8Array.length / 2)` whose fractional length is
truncated by `ToIndex`. -/
def chunkPairs : List ℕ → List (ℕ × ℕ)
  | lo :: hi :: rest => (lo, hi) :: chunkPairs rest
  | _ => []

/-- `uint8ArrayToInt16Array`: little-endian 16-bit samples from raw bytes.
`new Int16Array(uint8Array.length / 2)` truncates a fractional length, so an
odd byte list yields `⌊length / 2⌋` samples with the last byte dropped. -/
def uint8ArrayToInt16Array (uint8Array : List ℕ) : List ℤ :=
  (chunkPairs uint8Array).map fun p => sampleOfBytes p.1 p.2

/-- `int16ArrayToFloat32Array`: multiply by `scale = 1.0 / 32768.0`. -/
def int16ArrayToFloat32Array (int16Array : List ℤ) : List ℚ :=
  int16Array.map (fun s : ℤ => (s : ℚ) * (1 / 32768))

/-- `base64PcmToFloat32`: Base64 → Uint8Array → Int16Array → Float32Array.
`none` models the exceptions thrown on malformed base64. -/
def base64PcmToFloat32 (base64 : String) : Option (List ℚ) :=
  match base64ToUint8Array base64 with
  | none => none
  | some uint8Array => some (int16ArrayToFloat32Array (uint8ArrayToInt16Array uint8Array))

/-- Modelled from the spec: the byte representation of one 16-bit signed
little-endian PCM sample, as produced by the external encoder. -/
def int16ToBytesLE (s : ℤ) : List ℕ :=
  [(s % 65536).toNat % 256, (s % 65536).toNat / 256]

/-- Modelled from the spec: little-endian byte stream of a PCM16 sample list. -/
def pcm16leBytes : List ℤ → List ℕ
  | [] => []
  | s :: rest => int16ToBytesLE s ++ pcm16leBytes rest

/-! ## Envelope shaper (`applyFadeIn` / `applyFadeOut` in `audio.js`) -/

/-- The loop of `applyFadeIn`: element at absolute index `k + position` is
scaled by `index / fadeLength` while the index is below `fadeLength`. -/
def applyFadeInAux (fadeLength : ℕ) : ℕ → List ℚ → List ℚ
  | _, [] => []
  | i, x :: xs =>
      (if i < fadeLength then x * ((i : ℚ) / (fadeLength : ℚ)) else x) ::
      applyFadeInAux fadeLength (i + 1) xs

/-- `applyFadeIn`: linear 0→1 ramp over the first
`min fadeSamples data.length` samples. -/
def applyFadeIn (data : List ℚ) (fadeSamples : ℕ) : List ℚ :=
  applyFadeInAux (min fadeSamples data.length) 0 data

/-- The loop of `applyFadeOut`: element at index `j ≥ startIndex`
(`startIndex = length - fadeLength`) is scaled by
`1 - (j - startIndex) / fadeLength`. -/
def applyFadeOutAux (len fadeLength : ℕ) : ℕ → List ℚ → List ℚ
  | _, [] => []
  | j, x :: xs =>
      (if len - fadeLength ≤ j then
          x * (1 - ((j - (len - fadeLength) : ℕ) : ℚ) / (fadeLength : ℚ))
        else x) ::
      applyFadeOutAux len fadeLength (j + 1) xs

/-- `applyFadeOut`: linear 1→`1/fadeLength` ramp over the last
`min fadeSamples data.length` samples. -/
def applyFadeOut (data : List ℚ) (fadeSamples : ℕ) : List ℚ :=
  applyFadeOutAux data.length (min fadeSamples data.length) 0 data

/-- The gain that `applyFadeIn` applies at distance `i` from the start, for a
fade of effective length `fadeLength` (1 outside the faded range). -/
def entryGain (fadeLength i : ℕ) : ℚ :=
  if i < fadeLength then (i : ℚ) / (fadeLength : ℚ) else 1

/-! ## The audio service (`AudioService` in `audio-service.js`) -/

/-- `PlaybackState` from `types.ts`. -/
inductive PlaybackState where
  | playing
  | paused
  | stopped
  | connecting
deriving DecidableEq

/-- A decoded (Web Audio) buffer: one channel of float samples. Its
`duration` is `length / sampleRate` as reported by `AudioBuffer.duration`. -/
structure AudioBuffer where
  data : List ℚ
deriving DecidableEq

def AudioBuffer.duration (b : AudioBuffer) : ℚ :=
  (b.data.length : ℚ) / (audioConfig.SAMPLE_RATE : ℚ)

/-- `createAudioBuffer`: `audioContext.createBuffer` throws `NotSupportedError`
when the frame count is zero, which the caller's `try`/`catch` turns into a
dropped chunk; hence `Option`. -/
def createAudioBuffer (data : List ℚ) : Option AudioBuffer :=
  if data.length = 0 then none else some ⟨data⟩

/-- One source scheduled during `processAudioQueue`: the buffer handed to
`source.start(startTime)`, the absolute start time used, and whether the
underrun branch fired while scheduling it. -/
structure SegRecord where
  buffer : AudioBuffer
  startTime : ℚ
  underrun : Bool
deriving DecidableEq

def defaultSeg : SegRecord := ⟨⟨[]⟩, 0, false⟩

/-- Events emitted through `this.emit` (`AudioServiceEvent`). -/
inductive AudioEvent where
  | stateChange (state : PlaybackState)
  | volumeChange (volume : ℚ)
  | underrun
  | bufferUpdate (bufferLevel : ℚ)
deriving DecidableEq

/-- The mutable fields of `AudioService`. `hasContext` models whether
`this.audioContext` is non-null; `scheduledSources` keeps the buffers of the
in-flight `AudioBufferSourceNode`s. -/
structure AudioState where
  hasContext : Bool
  playbackState : PlaybackState
  volume : ℚ
  nextStartTime : ℚ
  scheduledSources : List AudioBuffer
  audioQueue : List AudioBuffer
  isProcessingQueue : Bool
  bufferLevel : ℚ
  totalBufferedDuration : ℚ
deriving DecidableEq

/-- Result of the scheduling loop in `processAudioQueue`. -/
structure DrainResult where
  queue : List AudioBuffer
  nextStartTime : ℚ
  segments : List SegRecord
  events : List AudioEvent
deriving DecidableEq

/-- Result of one engine operation: the new state, the segments handed to the
output sink (in order), the events emitted (in order), and the buffers created
and pushed onto the queue by this operation (in order). -/
structure OpResult where
  state : AudioState
  segments : List SegRecord
  events : List AudioEvent
  created : List AudioBuffer
deriving DecidableEq

/-- The `while` loop of `processAudioQueue`: shift a buffer; if
`nextStartTime < currentTime` reset `nextStartTime = currentTime` and emit
`underrun`; schedule the source at `nextStartTime`; advance `nextStartTime`
by the buffer's duration; break once
`nextStartTime - currentTime > LOOKAHEAD_TIME * 10`. `currentTime` is read
once, before the loop. -/
def drainLoop : List AudioBuffer → ℚ → ℚ → DrainResult
  | [], nextStartTime, _ => ⟨[], nextStartTime, [], []⟩
  | buffer :: rest, nextStartTime, currentTime =>
    let start := if nextStartTime < currentTime then currentTime else nextStartTime
    let events : List AudioEvent :=
      if nextStartTime < currentTime then [AudioEvent.underrun] else []
    let seg : SegRecord := ⟨buffer, start, decide (nextStartTime < currentTime)⟩
    let ns2 := start + buffer.duration
    if ns2 - currentTime > audioConfig.LOOKAHEAD_TIME * 10 then
      ⟨rest, ns2, [seg], events⟩
    else
      let r := drainLoop rest ns2 currentTime
      ⟨r.queue, r.nextStartTime, seg :: r.segments, events ++ r.events⟩

/-- `processAudioQueue`: no-op unless a context exists, the state is
`playing`, and no drain is already in progress; otherwise runs the
scheduling loop and appends the scheduled sources to `scheduledSources`.
(`isProcessingQueue` is set on entry and cleared in `finally`, so it is
unchanged in the resulting state.) -/
def processAudioQueue (s : AudioState) (now : ℚ) : OpResult :=
  if s.isProcessingQueue = true ∨ s.hasContext = false ∨
      ¬ s.playbackState = PlaybackState.playing then
    ⟨s, [], [], []⟩
  else
    let r := drainLoop s.audioQueue s.nextStartTime now
    ⟨{ s with
        audioQueue := r.queue
        nextStartTime := r.nextStartTime
        scheduledSources := s.scheduledSources ++ r.segments.map SegRecord.buffer },
      r.segments, r.events, []⟩

/-- The decode prefix of `queueAudioChunk`'s `try` block: decode the chunk,
apply the entry fade when both the queue and the in-flight set are empty,
and create the `AudioBuffer`; `none` models the exceptions caught by the
surrounding `catch` (malformed base64, zero-length buffer). -/
def decodeChunkBuffer (s : AudioState) (base64Data : String) : Option AudioBuffer :=
  match base64PcmToFloat32 base64Data with
  | none => none
  | some float32Data =>
    let fadeSamples := (Int.floor (audioConfig.FADE_DURATION * (audioConfig.SAMPLE_RATE : ℚ))).toNat
    let processedData :=
      if s.audioQueue = [] ∧ s.scheduledSources = [] then
        applyFadeIn float32Data fadeSamples
      else float32Data
    createAudioBuffer processedData

/-- `queueAudioChunk`: warn and return without a context; decode the chunk
(`try`/`catch` drops it on failure); push the resulting buffer, update the
buffered-duration telemetry, emit `buffer-update`; drain immediately when
playing. -/
def queueAudioChunk (s : AudioState) (base64Data : String) (now : ℚ) : OpResult :=
  if s.hasContext = false then ⟨s, [], [], []⟩
  else
    match decodeChunkBuffer s base64Data with
    | none => ⟨s, [], [], []⟩
    | some buffer =>
      let total := s.totalBufferedDuration + buffer.duration
      let level := min 1 (total / 5)
      let s1 : AudioState :=
        { s with
            audioQueue := s.audioQueue ++ [buffer]
            totalBufferedDuration := total
            bufferLevel := level }
      if s1.playbackState = PlaybackState.playing then
        let r := processAudioQueue s1 now
        ⟨r.state, r.segments, AudioEvent.bufferUpdate level :: r.events, [buffer]⟩
      else
        ⟨s1, [], [AudioEvent.bufferUpdate level], [buffer]⟩

/-- `setVolume`: store the clamped volume and emit `volume-change` with it. -/
def setVolume (s : AudioState) (volume : ℚ) : OpResult :=
  let v := max 0 (min 1 volume)
  ⟨{ s with volume := v }, [], [AudioEvent.volumeChange v], []⟩

/-- `getVolume`. -/
def getVolume (s : AudioState) : ℚ := s.volume

/-- `play` (successful-initialization path): acquire the context if missing,
set the state to `playing` (emitting `state-change` when it changes) and run
`processAudioQueue`. -/
def play (s : AudioState) (now : ℚ) : OpResult :=
  let s0 : AudioState := { s with hasContext := true }
  let stateEvents : List AudioEvent :=
    if s0.playbackState = PlaybackState.playing then []
    else [AudioEvent.stateChange PlaybackState.playing]
  let s1 : AudioState := { s0 with playbackState := PlaybackState.playing }
  let r := processAudioQueue s1 now
  ⟨r.state, r.segments, stateEvents ++ r.events, []⟩

/-- `stop`: stop and drop all scheduled sources, clear the queue and the
telemetry, set `nextStartTime = 0`, set the state to `stopped`, and emit
`buffer-update 0`. -/
def stop (s : AudioState) : OpResult :=
  let s1 : AudioState :=
    { s with
        scheduledSources := []
        audioQueue := []
        totalBufferedDuration := 0
        bufferLevel := 0
        nextStartTime := 0
        playbackState := PlaybackState.stopped }
  let stateEvents : List AudioEvent :=
    if s.playbackState = PlaybackState.stopped then []
    else [AudioEvent.stateChange PlaybackState.stopped]
  ⟨s1, [], stateEvents ++ [AudioEvent.bufferUpdate 0], []⟩

/-- External triggers of the engine while streaming: a chunk arriving
(`queueAudioChunk`) and a `requestAnimationFrame` safety tick re-invoking
`processAudioQueue`. Each carries the output clock reading at that moment. -/
inductive EngineOp where
  | queueChunk (base64Data : String) (now : ℚ)
  | drainTick (now : ℚ)

def runOp (s : AudioState) : EngineOp → OpResult
  | .queueChunk base64Data now => queueAudioChunk s base64Data now
  | .drainTick now => processAudioQueue s now

/-- Run a sequence of engine operations, accumulating the scheduled segments,
emitted events, and created buffers in order. -/
def run (s : AudioState) : List EngineOp → OpResult
  | [] => ⟨s, [], [], []⟩
  | op :: ops =>
    let r1 := runOp s op
    let r2 := run r1.state ops
    ⟨r2.state, r1.segments ++ r2.segments, r1.events ++ r2.events, r1.created ++ r2.created⟩

/-! ## Helper lemmas: envelope shaper -/

lemma applyFadeInAux_getD (fl : ℕ) :
    ∀ (k : ℕ) (xs : List ℚ) (d : ℕ), d < xs.length →
      (applyFadeInAux fl k xs).getD d 0
        = xs.getD d 0 * (if k + d < fl then ((k + d : ℕ) : ℚ) / (fl : ℚ) else 1)
  | _, [], d, h => by simp at h
  | k, x :: xs, 0, _ => by
      simp only [applyFadeInAux, List.getD_cons_zero, Nat.add_zero]
      split <;> simp
  | k, x :: xs, d + 1, h => by
      simp only [applyFadeInAux, List.getD_cons_succ]
      rw [applyFadeInAux_getD fl (k + 1) xs d (by simpa using h)]
      have : k + 1 + d = k + (d + 1) := by omega
      rw [this]

lemma applyFadeOutAux_getD (len fl : ℕ) :
    ∀ (k : ℕ) (xs : List ℚ) (d : ℕ), d < xs.length →
      (applyFadeOutAux len fl k xs).getD d 0
        = xs.getD d 0 *
          (if len - fl ≤ k + d then 1 - (((k + d) - (len - fl) : ℕ) : ℚ) / (fl : ℚ) else 1)
  | _, [], d, h => by simp at h
  | k, x :: xs, 0, _ => by
      simp only [applyFadeOutAux, List.getD_cons_zero, Nat.add_zero]
      split <;> simp
  | k, x :: xs, d + 1, h => by
      simp only [applyFadeOutAux, List.getD_cons_succ]
      rw [applyFadeOutAux_getD len fl (k + 1) xs d (by simpa using h)]
      have : k + 1 + d = k + (d + 1) := by omega
      rw [this]

lemma applyFadeOutAux_length (len fl : ℕ) :
    ∀ (k : ℕ) (xs : List ℚ), (applyFadeOutAux len fl k xs).length = xs.length
  | _, [] => rfl
  | k, _ :: xs => by
      simp only [applyFadeOutAux, List.length_cons, applyFadeOutAux_length len fl (k + 1) xs]

lemma applyFadeOut_length (data : List ℚ) (f : ℕ) :
    (applyFadeOut data f).length = data.length := by
  simp [applyFadeOut, applyFadeOutAux_length]

lemma getD_reverse_of_lt {l : List ℚ} {d : ℕ} (h : d < l.length) :
    l.reverse.getD d 0 = l.getD (l.length - 1 - d) 0 := by
  rw [List.getD_eq_getElem?_getD, List.getD_eq_getElem?_getD,
    List.getElem?_reverse (by simpa using h)]

/-! ## Claim theorems for the envelope shaper, volume control, and
chunk-queueing guard paths -/

/-- Claim C8 counterexample: for `data = [1, 1]` and `fadeSamples = 2`,
reversing `applyFadeOut data 2` gives `[1/2, 1]` while `applyFadeIn` on the
reversed data gives `[0, 1/2]`; the claimed exact mirror identity fails
(the entry ramp starts at gain 0, the exit ramp ends at gain `1/fadeLength`,
an off-by-one shift). -/
theorem claimC8_counterexample :
    (applyFadeOut [1, 1] 2).reverse ≠ applyFadeIn (([1, 1] : List ℚ).reverse) 2 := by
  have h1 : (applyFadeOut [1, 1] 2).reverse = [(1 : ℚ)/2, 1] := by
    norm_num [applyFadeOut, applyFadeOutAux]
  have h2 : applyFadeIn (([1, 1] : List ℚ).reverse) 2 = [0, (1 : ℚ)/2] := by
    norm_num [applyFadeIn, applyFadeInAux]
  rw [h1, h2]
  norm_num

/-- Claim C8 (amended): the exit fade is the one-sample-shifted mirror of the
entry fade: at distance `d` from the end, `applyFadeOut` applies exactly the
entry-fade gain evaluated at distance `d + 1` from the start, while
`applyFadeIn` applies the entry-fade gain at distance `d`. -/
theorem claimC8_amended (data : List ℚ) (f : ℕ) (d : ℕ) (h : d < data.length) :
    (applyFadeOut data f).reverse.getD d 0
      = data.reverse.getD d 0 * entryGain (min f data.length) (d + 1)
    ∧ (applyFadeIn data f).getD d 0 = data.getD d 0 * entryGain (min f data.length) d := by
  constructor
  · have hlen : d < (applyFadeOut data f).length := by rw [applyFadeOut_length]; exact h
    rw [getD_reverse_of_lt hlen, getD_reverse_of_lt h, applyFadeOut_length]
    have hidx : data.length - 1 - d < data.length := by omega
    rw [applyFadeOut, applyFadeOutAux_getD data.length (min f data.length) 0 data _ hidx]
    rw [Nat.zero_add]
    have hfl : min f data.length ≤ data.length := Nat.min_le_right f data.length
    congr 1
    rcases Nat.lt_trichotomy (d + 1) (min f data.length) with hc | hc | hc
    · rw [if_pos (by omega), entryGain, if_pos hc]
      have ha : (data.length - 1 - d) - (data.length - min f data.length)
          = min f data.length - 1 - d := by omega
      rw [ha]
      have hflpos : (0 : ℚ) < (min f data.length : ℚ) := by
        have : 0 < min f data.length := by omega
        exact_mod_cast this
      have hcast : ((min f data.length - 1 - d : ℕ) : ℚ)
          = (min f data.length : ℚ) - ((d : ℚ) + 1) := by
        have hn : (min f data.length - 1 - d) + (d + 1) = min f data.length := by omega
        have := congrArg (fun n : ℕ => (n : ℚ)) hn
        push_cast at this
        linarith
      rw [hcast]
      field_simp
    · rw [if_pos (by omega), entryGain, if_neg (by omega)]
      have ha : (data.length - 1 - d) - (data.length - min f data.length) = 0 := by omega
      rw [ha]
      simp
    · rw [if_neg (by omega), entryGain, if_neg (by omega)]
  · rw [applyFadeIn, applyFadeInAux_getD (min f data.length) 0 data d h, Nat.zero_add,
      entryGain]

/-- Claim C8 witness: the amended mirror relation at `data = [1, 1]`,
`fadeSamples = 2`, distance 0 from the end. -/
theorem claimC8_witness :
    (applyFadeOut [1, 1] 2).reverse.getD 0 0
      = ([1, 1] : List ℚ).reverse.getD 0 0 * entryGain (min 2 ([1, 1] : List ℚ).length) (0 + 1)
    ∧ (applyFadeIn [1, 1] 2).getD 0 0
      = ([1, 1] : List ℚ).getD 0 0 * entryGain (min 2 ([1, 1] : List ℚ).length) 0 :=
  claimC8_amended [1, 1] 2 0 (by norm_num)

/-- Claim C9: `setVolume` stores `max 0 (min 1 v)`; `getVolume` then returns
that clamped value, the emitted `volume-change` event carries it, and it lies
in [0, 1]. -/
theorem claimC9 (s : AudioState) (v : ℚ) :
    getVolume (setVolume s v).state = max 0 (min 1 v)
    ∧ (setVolume s v).events = [AudioEvent.volumeChange (max 0 (min 1 v))]
    ∧ 0 ≤ getVolume (setVolume s v).state ∧ getVolume (setVolume s v).state ≤ 1 := by
  refine ⟨rfl, rfl, le_max_left 0 _, ?_⟩
  show max 0 (min 1 v) ≤ 1
  exact max_le (by norm_num) (min_le_left 1 v)

/-- Claim C10: `queueAudioChunk` called before the engine is initialized (no
audio context) returns without raising and leaves the whole state unchanged,
scheduling nothing, emitting nothing, creating nothing. -/
theorem claimC10 (s : AudioState) (base64Data : String) (now : ℚ)
    (h : s.hasContext = false) :
    queueAudioChunk s base64Data now = ⟨s, [], [], []⟩ := by
  simp [queueAudioChunk, h]

/-- Claim C10 witness: a concrete uninitialized state and chunk. -/
theorem claimC10_witness :
    queueAudioChunk ⟨false, PlaybackState.stopped, 1, 0, [], [], false, 0, 0⟩ ("AAA=") 0
      = ⟨⟨false, PlaybackState.stopped, 1, 0, [], [], false, 0, 0⟩, [], [], []⟩ :=
  claimC10 _ _ _ rfl

lemma chunkPairs_length : ∀ bytes : List ℕ, (chunkPairs bytes).length = bytes.length / 2
  | [] => by simp [chunkPairs]
  | [_] => by simp [chunkPairs]
  | _ :: _ :: rest => by
      simp only [chunkPairs, List.length_cons, chunkPairs_length rest]
      omega

/-- Claim C7 counterexample: the chunk `"AAAA"` decodes to 3 bytes (odd), yet
`queueAudioChunk` does not drop it: `new Int16Array(3 / 2)` truncates to one
sample, the trailing byte is silently discarded, and the chunk is enqueued —
the queue and the buffered-duration telemetry change. -/
theorem claimC7_counterexample :
    base64ToUint8Array ("AAAA") = some [0, 0, 0]
    ∧ (queueAudioChunk ⟨true, PlaybackState.paused, 1, 0, [], [], false, 0, 0⟩ ("AAAA") 0).state.audioQueue
        = [⟨[0]⟩]
    ∧ (queueAudioChunk ⟨true, PlaybackState.paused, 1, 0, [], [], false, 0, 0⟩ ("AAAA") 0).state.totalBufferedDuration
        = 1 / 24000 := by
  have hdec : base64PcmToFloat32 ("AAAA") = some [0] := by
    have hb : base64ToUint8Array ("AAAA") = some [0, 0, 0] := by decide
    simp only [base64PcmToFloat32, hb]
    norm_num [uint8ArrayToInt16Array, chunkPairs, sampleOfBytes, storeInt16,
      int16ArrayToFloat32Array]
  have hps : ¬ (PlaybackState.paused = PlaybackState.playing) := by decide
  refine ⟨by decide, ?_, ?_⟩ <;>
    norm_num [queueAudioChunk, decodeChunkBuffer, hdec, applyFadeIn, applyFadeInAux,
      createAudioBuffer, AudioBuffer.duration, audioConfig, if_neg hps]

/-- Claim C7 (amended): a chunk whose base64 decoding fails is logged and
dropped — no exception propagates (the model's total function returns) and
the queue, buffered duration, buffer level and `nextStartTime` are all
unchanged. A decoded byte count that is not a multiple of 2, however, does
not make the chunk fail: the sample count is `⌊bytes / 2⌋` and the trailing
odd byte is silently discarded. -/
theorem claimC7_amended (s : AudioState) (base64Data : String) (now : ℚ) :
    (s.hasContext = true → base64PcmToFloat32 base64Data = none →
      queueAudioChunk s base64Data now = ⟨s, [], [], []⟩)
    ∧ ∀ bytes : List ℕ, (uint8ArrayToInt16Array bytes).length = bytes.length / 2 := by
  constructor
  · intro hc hd
    simp [queueAudioChunk, decodeChunkBuffer, hc, hd]
  · intro bytes
    simp [uint8ArrayToInt16Array, chunkPairs_length]

/-- Claim C7 witness: `"####"` is not valid base64; with a context present the
chunk is dropped with the state untouched; and a 3-byte input yields one
sample. -/
theorem claimC7_witness :
    base64PcmToFloat32 ("####") = none
    ∧ queueAudioChunk ⟨true, PlaybackState.paused, 1, 0, [], [], false, 0, 0⟩ ("####") 0
        = ⟨⟨true, PlaybackState.paused, 1, 0, [], [], false, 0, 0⟩, [], [], []⟩
    ∧ (uint8ArrayToInt16Array [0, 0, 0]).length = 1 := by
  refine ⟨by decide, (claimC7_amended _ ("####") 0).1 rfl (by decide), ?_⟩
  have h := (claimC7_amended ⟨true, PlaybackState.paused, 1, 0, [], [], false, 0, 0⟩
    ("####") 0).2 [0, 0, 0]
  simpa using h

/-! ## Helper lemmas: base64 round trip and PCM decoding -/

lemma b64Index_b64Char : ∀ n : ℕ, n < 64 → b64Index (b64Char n) = some n := by decide

lemma b64Char_ne_pad : ∀ n : ℕ, n < 64 → ¬ b64Char n = '=' := by decide

lemma encode_shape : ∀ (x : ℕ) (xs : List ℕ), ∃ c cs, base64EncodeBytes (x :: xs) = c :: cs
  | _, [] => ⟨_, _, rfl⟩
  | _, [_] => ⟨_, _, rfl⟩
  | _, _ :: _ :: _ => ⟨_, _, rfl⟩

/-- Decoding inverts encoding on byte lists. -/
lemma b64_roundtrip : ∀ bs : List ℕ, (∀ b ∈ bs, b < 256) →
    b64DecodeGroups (base64EncodeBytes bs) = some bs
  | [], _ => rfl
  | [b0], h => by
      have hb0 : b0 < 256 := h b0 (by simp)
      simp only [base64EncodeBytes, b64DecodeGroups, decodeQuad]
      rw [b64Index_b64Char (b0 / 4) (by omega), b64Index_b64Char (b0 % 4 * 16) (by omega)]
      simp only [reduceIte, Option.some.injEq, List.cons.injEq, and_true]
      omega
  | [b0, b1], h => by
      have hb0 : b0 < 256 := h b0 (by simp)
      have hb1 : b1 < 256 := h b1 (by simp)
      simp only [base64EncodeBytes, b64DecodeGroups, decodeQuad,
        if_neg (b64Char_ne_pad (b1 % 16 * 4) (by omega))]
      rw [b64Index_b64Char (b0 / 4) (by omega), b64Index_b64Char (b0 % 4 * 16 + b1 / 16) (by omega),
        b64Index_b64Char (b1 % 16 * 4) (by omega)]
      simp only [reduceIte, Option.some.injEq, List.cons.injEq, and_true]
      omega
  | b0 :: b1 :: b2 :: rest, h => by
      have hb0 : b0 < 256 := h b0 (by simp)
      have hb1 : b1 < 256 := h b1 (by simp)
      have hb2 : b2 < 256 := h b2 (by simp)
      have ih := b64_roundtrip rest (fun b hb => h b (by simp [hb]))
      cases rest with
      | nil =>
          simp only [base64EncodeBytes, b64DecodeGroups, decodeQuad,
            if_neg (b64Char_ne_pad (b2 % 64) (by omega))]
          rw [b64Index_b64Char (b0 / 4) (by omega),
            b64Index_b64Char (b0 % 4 * 16 + b1 / 16) (by omega),
            b64Index_b64Char (b1 % 16 * 4 + b2 / 64) (by omega),
            b64Index_b64Char (b2 % 64) (by omega)]
          simp only [Option.some.injEq, List.cons.injEq, and_true]
          omega
      | cons r rs =>
          obtain ⟨c, cs, hc⟩ := encode_shape r rs
          simp only [base64EncodeBytes]
          rw [hc]
          simp only [b64DecodeGroups]
          rw [b64Index_b64Char (b0 / 4) (by omega),
            b64Index_b64Char (b0 % 4 * 16 + b1 / 16) (by omega),
            b64Index_b64Char (b1 % 16 * 4 + b2 / 64) (by omega),
            b64Index_b64Char (b2 % 64) (by omega), ← hc, ih]
          simp only [Option.some.injEq, List.cons.injEq, and_true]
          omega

lemma sampleOfBytes_roundtrip (s : ℤ) (h1 : -32768 ≤ s) (h2 : s ≤ 32767) :
    sampleOfBytes ((s % 65536).toNat % 256) ((s % 65536).toNat / 256) = s := by
  have hnn : (0 : ℤ) ≤ s % 65536 := Int.emod_nonneg s (by norm_num)
  have hup : s % 65536 < 65536 := Int.emod_lt_of_pos s (by norm_num)
  obtain ⟨m, hmdef⟩ : ∃ m : ℤ, s % 65536 = m := ⟨_, rfl⟩
  rw [hmdef] at hnn hup ⊢
  obtain ⟨n, hndef⟩ : ∃ n : ℕ, m.toNat = n := ⟨_, rfl⟩
  rw [hndef]
  simp only [sampleOfBytes, storeInt16]
  have hcomb : ((n / 256 : ℕ) : ℤ) * 256 + ((n % 256 : ℕ) : ℤ) = (n : ℤ) := by omega
  rw [hcomb]
  have hnm : (n : ℤ) = m := by omega
  rw [hnm]
  have hme : m % 65536 = m := by omega
  rw [hme]
  split_ifs <;> omega

lemma pcm_bytes_lt : ∀ ss : List ℤ, ∀ b ∈ pcm16leBytes ss, b < 256
  | [] => by simp [pcm16leBytes]
  | s :: rest => by
      intro b hb
      simp only [pcm16leBytes, int16ToBytesLE, List.cons_append, List.nil_append,
        List.mem_cons] at hb
      rcases hb with rfl | rfl | hb
      · exact Nat.mod_lt _ (by norm_num)
      · have hnn : (0 : ℤ) ≤ s % 65536 := Int.emod_nonneg s (by norm_num)
        have hup : s % 65536 < 65536 := Int.emod_lt_of_pos s (by norm_num)
        obtain ⟨m, hmdef⟩ : ∃ m : ℤ, s % 65536 = m := ⟨_, rfl⟩
        rw [hmdef] at hnn hup ⊢
        obtain ⟨n, hndef⟩ : ∃ n : ℕ, m.toNat = n := ⟨_, rfl⟩
        rw [hndef]
        have hlt : n < 65536 := by omega
        omega
      · exact pcm_bytes_lt rest b hb

lemma decode_samples : ∀ ss : List ℤ, (∀ s ∈ ss, -32768 ≤ s ∧ s ≤ 32767) →
    uint8ArrayToInt16Array (pcm16leBytes ss) = ss
  | [], _ => rfl
  | s :: rest, h => by
      have hs := h s (by simp)
      have ih := decode_samples rest (fun x hx => h x (by simp [hx]))
      simp only [pcm16leBytes, int16ToBytesLE, List.cons_append, List.nil_append,
        uint8ArrayToInt16Array, chunkPairs, List.map_cons] at ih ⊢
      rw [sampleOfBytes_roundtrip s hs.1 hs.2]
      exact congrArg (s :: ·) ih

/-- Claim C3: decoding the base64 encoding of the little-endian byte stream of
N 16-bit signed samples yields exactly N floats, the i-th equal to
`sample_i / 32768`, all within [-1, 1]. Samples are exact here (ℚ); in
float32 the scaling by `1/32768` is exact as well. -/
theorem claimC3 (samples : List ℤ) (h : ∀ s ∈ samples, -32768 ≤ s ∧ s ≤ 32767) :
    base64PcmToFloat32 (String.mk (base64EncodeBytes (pcm16leBytes samples)))
        = some (samples.map (fun s : ℤ => (s : ℚ) / 32768))
    ∧ (samples.map (fun s : ℤ => (s : ℚ) / 32768)).length = samples.length
    ∧ ∀ x ∈ samples.map (fun s : ℤ => (s : ℚ) / 32768), -1 ≤ x ∧ x ≤ 1 := by
  refine ⟨?_, List.length_map samples _, ?_⟩
  · have hdata : (String.mk (base64EncodeBytes (pcm16leBytes samples))).data
        = base64EncodeBytes (pcm16leBytes samples) := rfl
    simp only [base64PcmToFloat32, base64ToUint8Array, atob, hdata,
      b64_roundtrip (pcm16leBytes samples) (pcm_bytes_lt samples),
      decode_samples samples h]
    simp only [int16ArrayToFloat32Array, mul_one_div, Option.some.injEq]
  · intro x hx
    simp only [List.mem_map] at hx
    obtain ⟨s, hs, rfl⟩ := hx
    have hb := h s hs
    have hcl : ((s : ℚ)) ≤ 32767 := by exact_mod_cast hb.2
    have hcg : (-32768 : ℚ) ≤ (s : ℚ) := by exact_mod_cast hb.1
    constructor
    · rw [le_div_iff (by norm_num : (0 : ℚ) < 32768)]
      linarith
    · rw [div_le_one (by norm_num : (0 : ℚ) < 32768)]
      linarith

/-- Claim C3 witness: the two samples `[1, -2]` (bytes `01 00 FE FF`,
base64 `"AQD+/w=="`) decode back to `[1/32768, -2/32768]`. -/
theorem claimC3_witness :
    base64PcmToFloat32 (String.mk (base64EncodeBytes (pcm16leBytes [1, -2])))
        = some (([1, -2] : List ℤ).map (fun s : ℤ => (s : ℚ) / 32768)) :=
  (claimC3 [1, -2] (by decide)).1

/-! ## Helper lemmas: the scheduling loop -/

lemma duration_nonneg (b : AudioBuffer) : 0 ≤ b.duration := by
  unfold AudioBuffer.duration
  positivity

lemma drain_head (b : AudioBuffer) (rest : List AudioBuffer) (ns now : ℚ) :
    (drainLoop (b :: rest) ns now).segments.head? =
      some ⟨b, if ns < now then now else ns, decide (ns < now)⟩ := by
  simp only [drainLoop]
  split <;> split <;> simp_all

lemma drain_partition : ∀ (queue : List AudioBuffer) (ns now : ℚ),
    (drainLoop queue ns now).segments.map SegRecord.buffer
      ++ (drainLoop queue ns now).queue = queue
  | [], _, _ => rfl
  | b :: rest, ns, now => by
      simp only [drainLoop]
      split <;> split <;>
        simp [drain_partition rest (now + b.duration) now,
          drain_partition rest (ns + b.duration) now]

lemma drain_events_filter : ∀ (queue : List AudioBuffer) (ns now : ℚ),
    (drainLoop queue ns now).events
      = ((drainLoop queue ns now).segments.filter SegRecord.underrun).map
          (fun _ => AudioEvent.underrun)
  | [], _, _ => rfl
  | b :: rest, ns, now => by
      simp only [drainLoop]
      split <;> split <;>
        simp_all [List.filter_cons,
          drain_events_filter rest (now + b.duration) now,
          drain_events_filter rest (ns + b.duration) now]


lemma drain_underrun_start : ∀ (queue : List AudioBuffer) (ns now : ℚ) (i : ℕ),
    ((drainLoop queue ns now).segments.getD i defaultSeg).underrun = true →
    ((drainLoop queue ns now).segments.getD i defaultSeg).startTime = now
  | [], _, _, i => by simp [drainLoop, defaultSeg]
  | b :: rest, ns, now, i => by
      by_cases hu : ns < now
      · simp only [drainLoop, if_pos hu, decide_eq_true hu]
        split
        · cases i with
          | zero => intro _; rfl
          | succ k => intro h; simp [defaultSeg] at h
        · cases i with
          | zero => intro _; rfl
          | succ k =>
              simp only [List.getD_cons_succ]
              exact drain_underrun_start rest _ now k
      · simp only [drainLoop, if_neg hu, decide_eq_false hu]
        split
        · cases i with
          | zero => intro h; simp at h
          | succ k => intro h; simp [defaultSeg] at h
        · cases i with
          | zero => intro h; simp at h
          | succ k =>
              simp only [List.getD_cons_succ]
              exact drain_underrun_start rest _ now k

lemma drain_gapless : ∀ (queue : List AudioBuffer) (ns now : ℚ) (i : ℕ),
    i + 1 < (drainLoop queue ns now).segments.length →
    ((drainLoop queue ns now).segments.getD (i + 1) defaultSeg).underrun = false →
    ((drainLoop queue ns now).segments.getD (i + 1) defaultSeg).startTime
      = ((drainLoop queue ns now).segments.getD i defaultSeg).startTime
        + ((drainLoop queue ns now).segments.getD i defaultSeg).buffer.duration
  | [], _, _, i => by intro h; simp [drainLoop] at h
  | b :: rest, ns, now, i => by
      simp only [drainLoop]
      split <;> split
      · intro h; simp at h
      · cases i with
        | zero =>
            cases rest with
            | nil => intro h; simp [drainLoop] at h
            | cons b2 rest2 =>
                intro h hu
                simp only [List.getD_cons_succ, List.getD_cons_zero] at hu ⊢
                have hh := drain_head b2 rest2 (now + b.duration) now
                rcases hsegs : (drainLoop (b2 :: rest2) (now + b.duration) now).segments with
                  _ | ⟨s0, tl⟩
                · rw [hsegs] at hh; simp at hh
                · rw [hsegs] at hh hu
                  simp only [List.head?_cons, Option.some.injEq] at hh
                  subst hh
                  simp only [List.getD_cons_zero] at hu ⊢
                  simp only [decide_eq_false_iff_not] at hu
                  simp [hu]
        | succ k =>
            intro h hu
            simp only [List.getD_cons_succ] at hu ⊢
            refine drain_gapless rest _ now k ?_ hu
            simp only [List.length_cons] at h
            omega
      · intro h; simp at h
      · cases i with
        | zero =>
            cases rest with
            | nil => intro h; simp [drainLoop] at h
            | cons b2 rest2 =>
                intro h hu
                simp only [List.getD_cons_succ, List.getD_cons_zero] at hu ⊢
                have hh := drain_head b2 rest2 (ns + b.duration) now
                rcases hsegs : (drainLoop (b2 :: rest2) (ns + b.duration) now).segments with
                  _ | ⟨s0, tl⟩
                · rw [hsegs] at hh; simp at hh
                · rw [hsegs] at hh hu
                  simp only [List.head?_cons, Option.some.injEq] at hh
                  subst hh
                  simp only [List.getD_cons_zero] at hu ⊢
                  simp only [decide_eq_false_iff_not] at hu
                  simp [hu]
        | succ k =>
            intro h hu
            simp only [List.getD_cons_succ] at hu ⊢
            refine drain_gapless rest _ now k ?_ hu
            simp only [List.length_cons] at h
            omega

lemma drain_ceiling : ∀ (queue : List AudioBuffer) (ns now : ℚ) (i : ℕ),
    i + 1 < (drainLoop queue ns now).segments.length →
    ((drainLoop queue ns now).segments.getD i defaultSeg).startTime
      + ((drainLoop queue ns now).segments.getD i defaultSeg).buffer.duration - now
      ≤ audioConfig.LOOKAHEAD_TIME * 10
  | [], _, _, i => by intro h; simp [drainLoop] at h
  | b :: rest, ns, now, i => by
      simp only [drainLoop]
      split <;> split
      · intro h; simp at h
      · rename_i hnb
        cases i with
        | zero =>
            intro h
            simp only [List.getD_cons_zero]
            exact le_of_not_lt hnb
        | succ k =>
            intro h
            simp only [List.getD_cons_succ]
            refine drain_ceiling rest _ now k ?_
            simp only [List.length_cons] at h
            omega
      · intro h; simp at h
      · rename_i hnb
        cases i with
        | zero =>
            intro h
            simp only [List.getD_cons_zero]
            exact le_of_not_lt hnb
        | succ k =>
            intro h
            simp only [List.getD_cons_succ]
            refine drain_ceiling rest _ now k ?_
            simp only [List.length_cons] at h
            omega

lemma drain_ns_mono : ∀ (queue : List AudioBuffer) (ns now : ℚ),
    ns ≤ (drainLoop queue ns now).nextStartTime
  | [], _, _ => le_refl _
  | b :: rest, ns, now => by
      have hdur := duration_nonneg b
      by_cases hu : ns < now
      · simp only [drainLoop, if_pos hu]
        split
        · dsimp only
          linarith
        · dsimp only
          have hrec := drain_ns_mono rest (now + b.duration) now
          linarith
      · simp only [drainLoop, if_neg hu]
        split
        · dsimp only
          linarith
        · dsimp only
          have hrec := drain_ns_mono rest (ns + b.duration) now
          linarith


/-- Claim C1: within any run of the draining routine, when the underrun
branch is not taken for segment `i + 1`, its start time equals the start time
of segment `i` plus the duration of segment `i`'s buffer (exact in ℚ; the
claim allows a floating-point epsilon). If the guard refuses to drain, no
segments are produced and the claim is vacuous. -/
theorem claimC1 (s : AudioState) (now : ℚ) (i : ℕ)
    (h : i + 1 < (processAudioQueue s now).segments.length)
    (hu : ((processAudioQueue s now).segments.getD (i + 1) defaultSeg).underrun = false) :
    ((processAudioQueue s now).segments.getD (i + 1) defaultSeg).startTime
      = ((processAudioQueue s now).segments.getD i defaultSeg).startTime
        + ((processAudioQueue s now).segments.getD i defaultSeg).buffer.duration := by
  by_cases hg : s.isProcessingQueue = true ∨ s.hasContext = false ∨
      ¬ s.playbackState = PlaybackState.playing
  · simp only [processAudioQueue, if_pos hg] at h
    simp at h
  · simp only [processAudioQueue, if_neg hg] at h hu ⊢
    exact drain_gapless s.audioQueue s.nextStartTime now i h hu

/-- Claim C2: in a drain while playing, when the queue head is dequeued with
`nextStartTime` strictly behind the clock time read at the start of the
drain, the head segment is scheduled at that clock time with its underrun
flag set and its buffer intact; the run emits exactly one `underrun` event
per flagged segment; the dequeued buffers plus the remaining queue are
exactly the original queue (no audio dropped); and every flagged segment of
the run starts at that clock time. -/
theorem claimC2 (s : AudioState) (b : AudioBuffer) (rest : List AudioBuffer) (now : ℚ)
    (h1 : s.isProcessingQueue = false) (h2 : s.hasContext = true)
    (h3 : s.playbackState = PlaybackState.playing)
    (hq : s.audioQueue = b :: rest) (hlt : s.nextStartTime < now) :
    (processAudioQueue s now).segments.head? = some ⟨b, now, true⟩
    ∧ (processAudioQueue s now).events
        = (((processAudioQueue s now).segments.filter SegRecord.underrun).map
            (fun _ => AudioEvent.underrun))
    ∧ (processAudioQueue s now).segments.map SegRecord.buffer
        ++ (processAudioQueue s now).state.audioQueue = b :: rest
    ∧ ∀ i : ℕ, ((processAudioQueue s now).segments.getD i defaultSeg).underrun = true →
        ((processAudioQueue s now).segments.getD i defaultSeg).startTime = now := by
  have hg : ¬ (s.isProcessingQueue = true ∨ s.hasContext = false ∨
      ¬ s.playbackState = PlaybackState.playing) := by
    simp [h1, h2, h3]
  simp only [processAudioQueue, if_neg hg, hq]
  refine ⟨?_, drain_events_filter (b :: rest) s.nextStartTime now, ?_, ?_⟩
  · rw [drain_head]
    simp [hlt]
  · exact drain_partition (b :: rest) s.nextStartTime now
  · exact fun i => drain_underrun_start (b :: rest) s.nextStartTime now i

/-- Claim C4 (amended): the ceiling is checked only after each scheduling, so
within one drain every dequeue other than the last happened with the lead
`nextStartTime - now` at most `LOOKAHEAD_TIME * 10` after the previous
scheduling; the first buffer of a run is dequeued and scheduled regardless of
the lead (see the counterexample to the original claim). -/
theorem claimC4_amended (s : AudioState) (now : ℚ) (i : ℕ)
    (h : i + 1 < (processAudioQueue s now).segments.length) :
    ((processAudioQueue s now).segments.getD i defaultSeg).startTime
      + ((processAudioQueue s now).segments.getD i defaultSeg).buffer.duration - now
      ≤ audioConfig.LOOKAHEAD_TIME * 10 := by
  by_cases hg : s.isProcessingQueue = true ∨ s.hasContext = false ∨
      ¬ s.playbackState = PlaybackState.playing
  · simp only [processAudioQueue, if_pos hg] at h
    simp at h
  · simp only [processAudioQueue, if_neg hg] at h ⊢
    exact drain_ceiling s.audioQueue s.nextStartTime now i h

/-! ## Run-level lemmas and the order-preservation and clock claims -/

lemma proc_partition (s : AudioState) (now : ℚ) :
    (processAudioQueue s now).segments.map SegRecord.buffer
      ++ (processAudioQueue s now).state.audioQueue = s.audioQueue := by
  by_cases hg : s.isProcessingQueue = true ∨ s.hasContext = false ∨
      ¬ s.playbackState = PlaybackState.playing
  · simp [processAudioQueue, if_pos hg]
  · simp only [processAudioQueue, if_neg hg]
    exact drain_partition s.audioQueue s.nextStartTime now

lemma proc_created (s : AudioState) (now : ℚ) : (processAudioQueue s now).created = [] := by
  by_cases hg : s.isProcessingQueue = true ∨ s.hasContext = false ∨
      ¬ s.playbackState = PlaybackState.playing
  · simp [processAudioQueue, if_pos hg]
  · simp [processAudioQueue, if_neg hg]

lemma proc_flags (s : AudioState) (now : ℚ) :
    (processAudioQueue s now).state.hasContext = s.hasContext
    ∧ (processAudioQueue s now).state.playbackState = s.playbackState
    ∧ (processAudioQueue s now).state.isProcessingQueue = s.isProcessingQueue := by
  by_cases hg : s.isProcessingQueue = true ∨ s.hasContext = false ∨
      ¬ s.playbackState = PlaybackState.playing
  · simp [processAudioQueue, if_pos hg]
  · simp [processAudioQueue, if_neg hg]

lemma proc_ns_mono (s : AudioState) (now : ℚ) :
    s.nextStartTime ≤ (processAudioQueue s now).state.nextStartTime := by
  by_cases hg : s.isProcessingQueue = true ∨ s.hasContext = false ∨
      ¬ s.playbackState = PlaybackState.playing
  · simp [processAudioQueue, if_pos hg]
  · simp only [processAudioQueue, if_neg hg]
    exact drain_ns_mono s.audioQueue s.nextStartTime now

lemma queueChunk_partition (s : AudioState) (c : String) (now : ℚ) :
    (queueAudioChunk s c now).segments.map SegRecord.buffer
      ++ (queueAudioChunk s c now).state.audioQueue
      = s.audioQueue ++ (queueAudioChunk s c now).created := by
  unfold queueAudioChunk
  by_cases hctx : s.hasContext = false
  · simp [hctx]
  · simp only [if_neg hctx]
    rcases hdec : decodeChunkBuffer s c with _ | buffer
    · simp
    · by_cases hps : s.playbackState = PlaybackState.playing
      · simp only [if_pos hps]
        rw [proc_partition]
      · simp only [if_neg hps]
        simp

lemma queueChunk_flags (s : AudioState) (c : String) (now : ℚ) :
    (queueAudioChunk s c now).state.hasContext = s.hasContext
    ∧ (queueAudioChunk s c now).state.playbackState = s.playbackState
    ∧ (queueAudioChunk s c now).state.isProcessingQueue = s.isProcessingQueue := by
  unfold queueAudioChunk
  by_cases hctx : s.hasContext = false
  · simp [hctx]
  · simp only [if_neg hctx]
    rcases hdec : decodeChunkBuffer s c with _ | buffer
    · simp
    · by_cases hps : s.playbackState = PlaybackState.playing
      · simp only [if_pos hps]
        exact proc_flags _ now
      · simp only [if_neg hps]
        simp

lemma queueChunk_ns_mono (s : AudioState) (c : String) (now : ℚ) :
    s.nextStartTime ≤ (queueAudioChunk s c now).state.nextStartTime := by
  unfold queueAudioChunk
  by_cases hctx : s.hasContext = false
  · simp [hctx]
  · simp only [if_neg hctx]
    rcases hdec : decodeChunkBuffer s c with _ | buffer
    · simp
    · by_cases hps : s.playbackState = PlaybackState.playing
      · simp only [if_pos hps]
        exact proc_ns_mono _ now
      · simp only [if_neg hps]
        simp


lemma runOp_partition (s : AudioState) (op : EngineOp) :
    (runOp s op).segments.map SegRecord.buffer ++ (runOp s op).state.audioQueue
      = s.audioQueue ++ (runOp s op).created := by
  cases op with
  | queueChunk c now => exact queueChunk_partition s c now
  | drainTick now =>
      simp only [runOp, proc_created s now, List.append_nil]
      exact proc_partition s now

lemma runOp_flags (s : AudioState) (op : EngineOp) :
    (runOp s op).state.hasContext = s.hasContext
    ∧ (runOp s op).state.playbackState = s.playbackState
    ∧ (runOp s op).state.isProcessingQueue = s.isProcessingQueue := by
  cases op with
  | queueChunk c now => exact queueChunk_flags s c now
  | drainTick now => exact proc_flags s now

lemma runOp_ns_mono (s : AudioState) (op : EngineOp) :
    s.nextStartTime ≤ (runOp s op).state.nextStartTime := by
  cases op with
  | queueChunk c now => exact queueChunk_ns_mono s c now
  | drainTick now => exact proc_ns_mono s now

lemma run_invariant : ∀ (ops : List EngineOp) (s : AudioState),
    (run s ops).segments.map SegRecord.buffer ++ (run s ops).state.audioQueue
      = s.audioQueue ++ (run s ops).created
  | [], s => by simp [run]
  | op :: ops, s => by
      simp only [run, List.map_append, List.append_assoc]
      rw [run_invariant ops (runOp s op).state]
      rw [← List.append_assoc, runOp_partition s op, List.append_assoc]

lemma run_flags : ∀ (ops : List EngineOp) (s : AudioState),
    (run s ops).state.hasContext = s.hasContext
    ∧ (run s ops).state.playbackState = s.playbackState
    ∧ (run s ops).state.isProcessingQueue = s.isProcessingQueue
  | [], s => ⟨rfl, rfl, rfl⟩
  | op :: ops, s => by
      have h1 := runOp_flags s op
      have h2 := run_flags ops (runOp s op).state
      simp only [run]
      exact ⟨h2.1.trans h1.1, h2.2.1.trans h1.2.1, h2.2.2.trans h1.2.2⟩

lemma run_ns_mono : ∀ (ops : List EngineOp) (s : AudioState),
    s.nextStartTime ≤ (run s ops).state.nextStartTime
  | [], s => le_refl _
  | op :: ops, s => by
      have h1 := runOp_ns_mono s op
      have h2 := run_ns_mono ops (runOp s op).state
      simp only [run]
      linarith

lemma run_append : ∀ (ops1 ops2 : List EngineOp) (s : AudioState),
    run s (ops1 ++ ops2)
      = ⟨(run (run s ops1).state ops2).state,
         (run s ops1).segments ++ (run (run s ops1).state ops2).segments,
         (run s ops1).events ++ (run (run s ops1).state ops2).events,
         (run s ops1).created ++ (run (run s ops1).state ops2).created⟩
  | [], ops2, s => by simp [run]
  | op :: ops1, ops2, s => by
      have ih := run_append ops1 ops2 (runOp s op).state
      simp only [List.cons_append, run, List.append_eq]
      rw [ih]
      simp [List.append_assoc]

lemma drain_queue_lt (b : AudioBuffer) (rest : List AudioBuffer) (ns now : ℚ) :
    (drainLoop (b :: rest) ns now).queue.length < (b :: rest).length := by
  have hp := drain_partition (b :: rest) ns now
  have hlen := congrArg List.length hp
  simp only [List.length_append, List.length_map, List.length_cons] at hlen
  have hne : (drainLoop (b :: rest) ns now).segments ≠ [] := by
    intro hnil
    have hh := drain_head b rest ns now
    rw [hnil] at hh
    simp at hh
  have hpos : 0 < (drainLoop (b :: rest) ns now).segments.length :=
    List.length_pos.mpr hne
  simp only [List.length_cons]
  omega

lemma ticks_drain : ∀ (n : ℕ) (s : AudioState) (now : ℚ),
    s.isProcessingQueue = false → s.hasContext = true →
    s.playbackState = PlaybackState.playing → s.audioQueue.length ≤ n →
    (run s (List.replicate n (EngineOp.drainTick now))).state.audioQueue = []
  | 0, s, now, _, _, _, hlen => by
      have hq : s.audioQueue = [] := List.eq_nil_of_length_eq_zero (by omega)
      simpa [run] using hq
  | n + 1, s, now, hp, hc, hs, hlen => by
      simp only [List.replicate_succ, run]
      have hfl := proc_flags s now
      refine ticks_drain n (processAudioQueue s now).state now ?_ ?_ ?_ ?_
      · rw [hfl.2.2, hp]
      · rw [hfl.1, hc]
      · rw [hfl.2.1, hs]
      · have hg : ¬ (s.isProcessingQueue = true ∨ s.hasContext = false ∨
            ¬ s.playbackState = PlaybackState.playing) := by
          simp [hp, hc, hs]
        rcases hq : s.audioQueue with _ | ⟨b, rest⟩
        · have : (processAudioQueue s now).state.audioQueue = [] := by
            simp [processAudioQueue, if_neg hg, hq, drainLoop]
          simp [this]
        · have hlt : (processAudioQueue s now).state.audioQueue.length
              < s.audioQueue.length := by
            simp only [processAudioQueue, if_neg hg, hq]
            exact drain_queue_lt b rest s.nextStartTime now
          omega

/-- Claim C5: order preservation. First conjunct: after any interleaving of
chunk arrivals and drain ticks from an initially empty queue, the buffers
handed to the output sink followed by the still-queued buffers are exactly
the successfully created buffers, in creation order — a prefix is played, in
order, with no reordering, interleaving, duplication or loss. Second
conjunct: after enough further drain ticks (one per queued buffer), the sink
has received exactly all created buffers in order. -/
theorem claimC5 (s : AudioState) (ops : List EngineOp) (now : ℚ)
    (h1 : s.hasContext = true) (h2 : s.playbackState = PlaybackState.playing)
    (h3 : s.isProcessingQueue = false) (h4 : s.audioQueue = []) :
    (run s ops).segments.map SegRecord.buffer ++ (run s ops).state.audioQueue
        = (run s ops).created
    ∧ (run s (ops ++ List.replicate (run s ops).state.audioQueue.length
          (EngineOp.drainTick now))).segments.map SegRecord.buffer
        = (run s (ops ++ List.replicate (run s ops).state.audioQueue.length
            (EngineOp.drainTick now))).created := by
  have hinv := run_invariant ops s
  rw [h4] at hinv
  simp only [List.nil_append] at hinv
  refine ⟨hinv, ?_⟩
  have hfl := run_flags ops s
  have hdrained := ticks_drain ((run s ops).state.audioQueue.length) (run s ops).state now
      (by rw [hfl.2.2, h3]) (by rw [hfl.1, h1]) (by rw [hfl.2.1, h2]) (le_refl _)
  have hq2 : (run s (ops ++ List.replicate (run s ops).state.audioQueue.length
      (EngineOp.drainTick now))).state.audioQueue = [] := by
    rw [run_append]
    exact hdrained
  have hinv3 := run_invariant (ops ++ List.replicate (run s ops).state.audioQueue.length
      (EngineOp.drainTick now)) s
  rw [h4, hq2] at hinv3
  simpa using hinv3

/-- Claim C6 (amended): `stop` resets `nextStartTime` to the constant 0 (not
to the clock), `play` never decreases it (it does not reset it to the clock;
it only drains, which advances it), and across any sequence of chunk
arrivals and drain ticks while playing it is monotonically non-decreasing. -/
theorem claimC6_amended (s : AudioState) (ops : List EngineOp) (now : ℚ) :
    (stop s).state.nextStartTime = 0
    ∧ s.nextStartTime ≤ (play s now).state.nextStartTime
    ∧ s.nextStartTime ≤ (run s ops).state.nextStartTime := by
  refine ⟨rfl, ?_, run_ns_mono ops s⟩
  unfold play
  exact proc_ns_mono _ now


/-! ## Witnesses and counterexamples for the scheduler claims -/

/-- Claim C1 witness: two one-sample buffers drained while playing from
`nextStartTime = now = 0`: the second starts at `0 + 1/24000`. -/
theorem claimC1_witness :
    ((processAudioQueue ⟨true, PlaybackState.playing, 1, 0, [], [⟨[0]⟩, ⟨[0]⟩], false, 0, 0⟩
        0).segments.getD 1 defaultSeg).startTime
      = ((processAudioQueue ⟨true, PlaybackState.playing, 1, 0, [], [⟨[0]⟩, ⟨[0]⟩], false, 0, 0⟩
          0).segments.getD 0 defaultSeg).startTime
        + ((processAudioQueue ⟨true, PlaybackState.playing, 1, 0, [], [⟨[0]⟩, ⟨[0]⟩], false, 0, 0⟩
            0).segments.getD 0 defaultSeg).buffer.duration :=
  claimC1 ⟨true, PlaybackState.playing, 1, 0, [], [⟨[0]⟩, ⟨[0]⟩], false, 0, 0⟩ 0 0
    (by norm_num [processAudioQueue, drainLoop, AudioBuffer.duration, audioConfig])
    (by norm_num [processAudioQueue, drainLoop, AudioBuffer.duration, audioConfig])

/-- Claim C2 witness: one buffer drained with `nextStartTime = 0` behind
`now = 1`: scheduled at 1 with the underrun flag, one underrun event. -/
theorem claimC2_witness :
    (processAudioQueue ⟨true, PlaybackState.playing, 1, 0, [], [⟨[0]⟩], false, 0, 0⟩
        1).segments.head? = some ⟨⟨[0]⟩, 1, true⟩
    ∧ (processAudioQueue ⟨true, PlaybackState.playing, 1, 0, [], [⟨[0]⟩], false, 0, 0⟩ 1).events
        = (((processAudioQueue ⟨true, PlaybackState.playing, 1, 0, [], [⟨[0]⟩], false, 0, 0⟩
            1).segments.filter SegRecord.underrun).map (fun _ => AudioEvent.underrun))
    ∧ (processAudioQueue ⟨true, PlaybackState.playing, 1, 0, [], [⟨[0]⟩], false, 0, 0⟩
          1).segments.map SegRecord.buffer
        ++ (processAudioQueue ⟨true, PlaybackState.playing, 1, 0, [], [⟨[0]⟩], false, 0, 0⟩
            1).state.audioQueue = ⟨[0]⟩ :: []
    ∧ ∀ i : ℕ, ((processAudioQueue ⟨true, PlaybackState.playing, 1, 0, [], [⟨[0]⟩], false, 0, 0⟩
          1).segments.getD i defaultSeg).underrun = true →
        ((processAudioQueue ⟨true, PlaybackState.playing, 1, 0, [], [⟨[0]⟩], false, 0, 0⟩
            1).segments.getD i defaultSeg).startTime = 1 :=
  claimC2 ⟨true, PlaybackState.playing, 1, 0, [], [⟨[0]⟩], false, 0, 0⟩ ⟨[0]⟩ [] 1
    rfl rfl rfl rfl (by norm_num)

/-- Claim C4 counterexample: with `nextStartTime - now = 10`, far beyond the
ceiling `LOOKAHEAD_TIME * 10 = 1`, the drain still dequeues and schedules a
buffer, because the ceiling is only checked after each scheduling. -/
theorem claimC4_counterexample :
    ¬ ((10 : ℚ) - 0 < audioConfig.LOOKAHEAD_TIME * 10)
    ∧ (processAudioQueue ⟨true, PlaybackState.playing, 1, 10, [], [⟨[0]⟩], false, 0, 0⟩
        0).segments.length = 1 := by
  constructor
  · norm_num [audioConfig]
  · norm_num [processAudioQueue, drainLoop, AudioBuffer.duration, audioConfig]

/-- Claim C4 witness: in a two-buffer drain the first scheduling left the
lead below the ceiling, which is why the second dequeue happened. -/
theorem claimC4_witness :
    ((processAudioQueue ⟨true, PlaybackState.playing, 1, 0, [], [⟨[0]⟩, ⟨[0]⟩], false, 0, 0⟩
        0).segments.getD 0 defaultSeg).startTime
      + ((processAudioQueue ⟨true, PlaybackState.playing, 1, 0, [], [⟨[0]⟩, ⟨[0]⟩], false, 0, 0⟩
          0).segments.getD 0 defaultSeg).buffer.duration - 0
      ≤ audioConfig.LOOKAHEAD_TIME * 10 :=
  claimC4_amended ⟨true, PlaybackState.playing, 1, 0, [], [⟨[0]⟩, ⟨[0]⟩], false, 0, 0⟩ 0 0
    (by norm_num [processAudioQueue, drainLoop, AudioBuffer.duration, audioConfig])

/-- Claim C5 witness: queueing the chunk `"AAA="` (one zero sample) while
playing: the handed-plus-queued buffers equal the created buffers. -/
theorem claimC5_witness :
    (run ⟨true, PlaybackState.playing, 1, 0, [], [], false, 0, 0⟩
        [EngineOp.queueChunk ("AAA=") 0]).segments.map SegRecord.buffer
      ++ (run ⟨true, PlaybackState.playing, 1, 0, [], [], false, 0, 0⟩
          [EngineOp.queueChunk ("AAA=") 0]).state.audioQueue
      = (run ⟨true, PlaybackState.playing, 1, 0, [], [], false, 0, 0⟩
          [EngineOp.queueChunk ("AAA=") 0]).created :=
  (claimC5 ⟨true, PlaybackState.playing, 1, 0, [], [], false, 0, 0⟩
    [EngineOp.queueChunk ("AAA=") 0] 0 rfl rfl rfl rfl).1

/-- Claim C6 counterexample: with the output clock at 5 and
`nextStartTime = 7`, `stop` sets `nextStartTime` to 0, not to the clock time
5; `play` leaves it at 7, likewise not the clock time. -/
theorem claimC6_counterexample :
    (stop ⟨true, PlaybackState.playing, 1, 7, [], [], false, 0, 0⟩).state.nextStartTime = 0
    ∧ ¬ ((0 : ℚ) = 5)
    ∧ (play ⟨true, PlaybackState.playing, 1, 7, [], [], false, 0, 0⟩ 5).state.nextStartTime = 7
    ∧ ¬ ((7 : ℚ) = 5) := by
  refine ⟨rfl, by norm_num, ?_, by norm_num⟩
  norm_num [play, processAudioQueue, drainLoop]


end Vibes
